import Mathlib

/-!
Shallow embedding of the wordplay-core-rust spatial and component model
(src/space.rs, src/component.rs), together with theorems settling the
specification claims about it.

Machine integers: Rust `i32` values are modelled as `Int` together with
explicit two's-complement wrapping (`wrap32`) at the operations where
overflow can occur (`i32::abs`, `i32` subtraction); Rust `u32` values are
modelled as `Nat`.  A Rust `panic!` is modelled as `Option.none`, while the
recoverable `component::Error` type is modelled by an explicit `Error`
structure returned through `Except`.
-/

namespace Wordplay

/-- Smallest `i32` value, `-2^31`. -/
def i32Min : Int := -(2 ^ 31)

/-- Largest `i32` value, `2^31 - 1`. -/
def i32Max : Int := 2 ^ 31 - 1

/-- Two's-complement wrapping of an integer into the `i32` range
`[-2^31, 2^31)`. -/
def wrap32 (v : Int) : Int := (v + 2 ^ 31) % 2 ^ 32 - 2 ^ 31

/-- Rust `i32::abs`: the mathematical absolute value, wrapped into the `i32`
range.  For every representable `i32` other than `i32::MIN` this is the plain
absolute value; `i32::MIN.abs()` overflows (it wraps to `i32::MIN` with
release-profile semantics; with debug overflow checks it panics — either way
no non-negative result is produced). -/
def i32Abs (v : Int) : Int := wrap32 (v.natAbs : Int)

/-- Rust `i32` subtraction `a - b`, wrapping on overflow. -/
def i32Sub (a b : Int) : Int := wrap32 (a - b)

/-- `space::Location`: an integer triple `(x, y, z)` (`i32` coordinates). -/
structure Location where
  x : Int
  y : Int
  z : Int
deriving DecidableEq, Repr

/-- `space::Distance`: the absolute separation between two locations. -/
structure Distance where
  x : Int
  y : Int
  z : Int
deriving DecidableEq, Repr

/-- `Distance::of((x, y, z))` (the `DistanceOf for (i32, i32, i32)` impl):
stores the `i32::abs` of each component. -/
def Distance.of (a b c : Int) : Distance :=
  { x := i32Abs a, y := i32Abs b, z := i32Abs c }

/-- The shared `ZERO` distance constant returned by `Distance::zero()`. -/
def Distance.zero : Distance := { x := 0, y := 0, z := 0 }

/-- `Distance::between(start, end)`: `Distance::of` applied to the
component-wise `i32` differences `end - start`. -/
def Distance.between (s e : Location) : Distance :=
  Distance.of (i32Sub e.x s.x) (i32Sub e.y s.y) (i32Sub e.z s.z)

/-- `space::Dimension`: a `u32` triple `(width, height, depth)`. -/
structure Dimension where
  width : Nat
  height : Nat
  depth : Nat
deriving DecidableEq, Repr

/-- `Dimension::of((width, height, depth))` (the
`DimensionOf for (u32, u32, u32)` impl).  The source panics when any
component is `< 1`; the panic is modelled as `none`.  No recoverable
`component::Error` value is involved in this constructor. -/
def Dimension.of? (w h dep : Nat) : Option Dimension :=
  if w < 1 then none
  else if h < 1 then none
  else if dep < 1 then none
  else some { width := w, height := h, depth := dep }

/-- Rust `u32::try_from` applied to an `i32` value: the conversion fails
exactly when the value is negative (every `i32` fits below `u32::MAX`). -/
def u32TryFrom (v : Int) : Option Nat :=
  if v < 0 then none else some v.toNat

/-- `Dimension::contains(location)`: converts each coordinate to `u32`
(returning `false` on failure, i.e. on a negative coordinate) and then
requires each to be strictly below the corresponding extent. -/
def Dimension.contains (d : Dimension) (l : Location) : Bool :=
  match u32TryFrom l.x with
  | none => false
  | some x =>
    match u32TryFrom l.y with
    | none => false
    | some y =>
      match u32TryFrom l.z with
      | none => false
      | some z => decide (x < d.width) && decide (y < d.height) && decide (z < d.depth)

/-- The total order derived on `Location` by `#[derive(Ord)]`: lexicographic
on the fields in declaration order, `x`, then `y`, then `z`. -/
def locle (a b : Location) : Prop :=
  a.x < b.x ∨ (a.x = b.x ∧ (a.y < b.y ∨ (a.y = b.y ∧ a.z ≤ b.z)))

instance : DecidableRel locle := fun a b => by
  unfold locle
  infer_instance

theorem locle_refl (a : Location) : locle a a := by
  unfold locle
  omega

theorem locle_total' (a b : Location) : locle a b ∨ locle b a := by
  unfold locle
  omega

theorem locle_trans' {a b c : Location} (h1 : locle a b) (h2 : locle b c) : locle a c := by
  unfold locle at h1 h2 ⊢
  omega

instance : IsTotal Location locle := ⟨locle_total'⟩

instance : IsTrans Location locle := ⟨fun _ _ _ => locle_trans'⟩

/-- Insertion into the `BTreeSet<Location>` model: a strictly increasing
sorted list without duplicates.  Inserting an element already present leaves
the set unchanged; otherwise the element is placed at its ordered position. -/
def setInsert (a : Location) (l : List Location) : List Location :=
  if a ∈ l then l else List.orderedInsert locle a l

/-- `space::Line`: its `BTreeSet<Location>` is modelled as the sorted list of
its members in increasing `locle` order. -/
structure Line where
  locations : List Location
deriving DecidableEq, Repr

/-- Rust `f32::round` applied to the exact rational `num / den` (with
`den > 0`): round half away from zero.  Both divisions below act on
non-negative integers, where truncated, floored and Euclidean integer
division agree, and compute `⌊num/den + 1/2⌋` (for the non-negative case)
resp. its mirror image for the negative case. -/
def rustRound (num den : Int) : Int :=
  if 0 ≤ num then (2 * num + den) / (2 * den)
  else -((2 * (-num) + den) / (2 * den))

/-- The `for _ in 0..(n as i32)` loop of `Line::between`: advance the
real-valued position by the per-axis step sizes, insert the rounded
location, and continue for the remaining iterations.  The source stores the
positions `px, py, pz` and steps `sx = d.x/n, …` as `f32`; the embedding
tracks the same quantities as exact rationals with common denominator
`den = n`, carrying only the numerators (the `px` here equals `n` times the
source's `px`, and the source's step `sx` has numerator `d.x`). -/
def lineLoop (den : Int) : Nat → Int → Int → Int → Int → Int → Int →
    List Location → List Location
  | 0, _, _, _, _, _, _, acc => acc
  | k + 1, sx, sy, sz, px, py, pz, acc =>
    lineLoop den k sx sy sz (px + sx) (py + sy) (pz + sz)
      (setInsert
        { x := rustRound (px + sx) den
          y := rustRound (py + sy) den
          z := rustRound (pz + sz) den }
        acc)

/-- `Line::between(start, end)`: inserts `start`, computes the absolute
`Distance` between the endpoints, takes `n` as the largest component, steps
`n` times by `(d.x/n, d.y/n, d.z/n)` from `start` and inserts each rounded
position.  The `f32` arithmetic of the source is modelled exactly over the
rationals (the two agree on board-scale inputs, where every intermediate
value is exactly representable in `f32`).  When `n = 0` the step sizes are
never read (in the source they are `NaN`) because the loop runs zero
times. -/
def Line.between (s e : Location) : Line :=
  let d := Distance.between s e
  let n : Int := max d.x (max d.y d.z)
  { locations :=
      lineLoop n n.toNat d.x d.y d.z (s.x * n) (s.y * n) (s.z * n) (setInsert s []) }

/-- `Line::contains(location)`: membership in the backing set. -/
def Line.contains (l : Line) (loc : Location) : Bool :=
  decide (loc ∈ l.locations)

/-- `Line::start()`: `BTreeSet::first`, the first element of the sorted
member list.  The source unwraps; the impossible empty case is `none`. -/
def Line.start? (l : Line) : Option Location :=
  l.locations.head?

/-- `Line::end()`: `BTreeSet::last`, the last element of the sorted member
list.  The source unwraps; the impossible empty case is `none`. -/
def Line.end? (l : Line) : Option Location :=
  l.locations.getLast?

/-- `lang::Letter`: the contract is a single display character with equality
and hashing, so a letter is modelled by its character. -/
abbrev Letter := Char

/-- `component::Piece` (trait object state): an optional letter, a base
value, and a wildcard flag. -/
structure Piece where
  letter : Option Letter
  value : Int
  wild : Bool
deriving DecidableEq, Repr

/-- The hand-rolled `PartialEq<dyn Piece> for dyn Piece` implementation:
differing wildcard flags are unequal; two wildcards are equal without
comparing letters; otherwise a `None` letter matches only a `None` letter
and `Some` letters are compared for equality. -/
def pieceEq (p q : Piece) : Bool :=
  if p.wild != q.wild then false
  else if p.wild then true
  else if p.letter.isNone then
    if !q.letter.isNone then false else true
  else if p.letter != q.letter then false
  else true

/-- `component::ErrorKind`. -/
inductive ErrorKind where
  | InvalidPlacement
  | NoSuchPiece
  | NotEnoughPieces
deriving DecidableEq, Repr

/-- `component::Error`: a kind plus a human-readable message. -/
structure Error where
  kind : ErrorKind
  message : String
deriving DecidableEq, Repr

/-- `Error::new`. -/
def Error.new (kind : ErrorKind) (message : String) : Error :=
  { kind := kind, message := message }

/-- `component::BagImpl`: a multiset of letters (modelled as a list; its
iteration order stands in for the hash-multiset's arbitrary order) together
with the piece factory used to materialize pieces.  `PieceFactory` has no
implementation under `src/`, so `create_piece` is kept abstract as a
function field. -/
structure BagImpl where
  letters : List Letter
  factory : Letter → Piece

/-- `Bag::is_empty` for `BagImpl`. -/
def BagImpl.is_empty (b : BagImpl) : Bool :=
  b.letters.isEmpty

/-- `Bag::count` for `BagImpl`: the multiset's length. -/
def BagImpl.count (b : BagImpl) : Nat :=
  b.letters.length

/-- `BagImpl::random_piece`.  The `rng.gen_range(0..count)` draw is modelled
by the explicit index argument `idx` (the range contract `idx < count` is a
hypothesis of the theorems).  The `&mut self` receiver is modelled by
returning the updated bag next to the result; the outer `Option` models the
`.expect` panics, which are unreachable for an in-range index.  On an empty
bag the call fails with `NotEnoughPieces` and the bag is untouched;
otherwise the letter at `idx` of the collected letter list is removed (one
occurrence) and a piece is created from it. -/
def BagImpl.random_piece (b : BagImpl) (idx : Nat) :
    Option (Except Error Piece × BagImpl) :=
  if b.is_empty then
    some (Except.error
      (Error.new ErrorKind.NotEnoughPieces "Cannot retrieve a piece from an empty bag"), b)
  else
    match b.letters.get? idx with
    | none => none
    | some c =>
      some (Except.ok (b.factory c), { b with letters := b.letters.erase c })

/-- `BagImpl::piece`: an unimplemented stub (marked `// TODO` in the source)
that unconditionally fails with `NoSuchPiece`, regardless of the bag's
contents.  The bag state is never touched. -/
def BagImpl.piece (_b : BagImpl) (letter : Letter) : Except Error Piece :=
  Except.error (Error.new ErrorKind.NoSuchPiece
    ("The letter \"" ++ String.singleton letter ++ "\" is not in this bag"))

/-- A concrete piece factory for witness computations: a non-wild piece
carrying the given letter with value 1. -/
def demoFactory : Letter → Piece :=
  fun c => { letter := some c, value := 1, wild := false }

/-- A concrete bag holding the letters `a` and `b`. -/
def demoBag : BagImpl :=
  { letters := ['a', 'b'], factory := demoFactory }

/-! ## Helper lemmas -/

theorem wrap32_of_range {v : Int} (h1 : i32Min ≤ v) (h2 : v ≤ i32Max) : wrap32 v = v := by
  unfold wrap32
  unfold i32Min at h1
  unfold i32Max at h2
  omega

theorem i32Sub_self (x : Int) : i32Sub x x = 0 := by
  unfold i32Sub wrap32
  omega

theorem distance_between_self_eq (L : Location) : Distance.between L L = Distance.zero := by
  unfold Distance.between Distance.of Distance.zero i32Abs
  simp [i32Sub_self]
  unfold wrap32
  omega

/-! ## Claim theorems -/

/-- C3: `Dimension::contains` returns `true` exactly when every coordinate of
the location is at least `0` and strictly below the corresponding extent
(`x < width`, `y < height`, `z < depth`); in particular any negative
coordinate yields `false`. -/
theorem dimension_contains_iff (d : Dimension) (l : Location) :
    d.contains l = true ↔
      (0 ≤ l.x ∧ l.x < (d.width : Int) ∧ 0 ≤ l.y ∧ l.y < (d.height : Int) ∧
       0 ≤ l.z ∧ l.z < (d.depth : Int)) := by
  unfold Dimension.contains u32TryFrom
  split_ifs <;> simp_all
  omega

/-- C8: constructing a `Dimension` with any component equal to `0` panics
(modelled by `none`, distinct from the recoverable `Error` type, which never
appears in this constructor's result type), while all components at least
`1` yield a `Dimension` storing exactly the given width, height and
depth. -/
theorem dimension_of_spec (w h dep : Nat) :
    Dimension.of? w h dep =
      if 1 ≤ w ∧ 1 ≤ h ∧ 1 ≤ dep then
        some { width := w, height := h, depth := dep }
      else none := by
  unfold Dimension.of?
  split_ifs <;> simp_all

/-- C9: the distance from any location to itself is the shared zero
distance. -/
theorem distance_between_self_is_zero (L : Location) :
    Distance.between L L = Distance.zero :=
  distance_between_self_eq L

/-- C2 counterexample: `-2^31` is a representable `i32`, yet the `x`
component of `Distance::of((i32::MIN, 0, 0))` is negative — `i32::abs`
overflows at `i32::MIN` (wrapping to `i32::MIN` in release builds; panicking
under debug overflow checks — under neither semantics is a `Distance` with
all components non-negative produced). -/
theorem distance_of_min_counterexample :
    i32Min ≤ -(2 ^ 31) ∧ -(2 ^ 31) ≤ i32Max - i32Max ∧
      ¬(0 ≤ (Distance.of (-(2 ^ 31)) 0 0).x) := by decide

/-- C2 (amended): every component of `Distance::of((a, b, c))` is
non-negative provided each argument's absolute value is representable as an
`i32` (i.e. no argument is `i32::MIN`), and every component of
`Distance::between(s, e)` is non-negative provided each coordinate
difference's absolute value is representable as an `i32`. -/
theorem distance_components_nonneg (a b c : Int) (s e : Location)
    (ha : (a.natAbs : Int) ≤ i32Max) (hb : (b.natAbs : Int) ≤ i32Max)
    (hc : (c.natAbs : Int) ≤ i32Max)
    (hx : ((e.x - s.x).natAbs : Int) ≤ i32Max)
    (hy : ((e.y - s.y).natAbs : Int) ≤ i32Max)
    (hz : ((e.z - s.z).natAbs : Int) ≤ i32Max) :
    (0 ≤ (Distance.of a b c).x ∧ 0 ≤ (Distance.of a b c).y ∧
       0 ≤ (Distance.of a b c).z) ∧
      (0 ≤ (Distance.between s e).x ∧ 0 ≤ (Distance.between s e).y ∧
       0 ≤ (Distance.between s e).z) := by
  unfold Distance.between Distance.of i32Abs i32Sub wrap32
  unfold i32Max at *
  dsimp only
  omega

/-- C2 witness: the amended non-negativity theorem applied at the concrete
inputs `(3, -4, 0)` and the locations `(1, 2, 3)`, `(0, 0, 0)`. -/
theorem distance_components_nonneg_witness :
    (((3 : Int).natAbs : Int) ≤ i32Max ∧ (((-4 : Int)).natAbs : Int) ≤ i32Max ∧
       (((0 : Int)).natAbs : Int) ≤ i32Max ∧
       ((((0 : Int) - 1)).natAbs : Int) ≤ i32Max ∧
       ((((0 : Int) - 2)).natAbs : Int) ≤ i32Max ∧
       ((((0 : Int) - 3)).natAbs : Int) ≤ i32Max) ∧
      ((0 ≤ (Distance.of 3 (-4) 0).x ∧ 0 ≤ (Distance.of 3 (-4) 0).y ∧
         0 ≤ (Distance.of 3 (-4) 0).z) ∧
        (0 ≤ (Distance.between ⟨1, 2, 3⟩ ⟨0, 0, 0⟩).x ∧
         0 ≤ (Distance.between ⟨1, 2, 3⟩ ⟨0, 0, 0⟩).y ∧
         0 ≤ (Distance.between ⟨1, 2, 3⟩ ⟨0, 0, 0⟩).z)) :=
  ⟨⟨by decide, by decide, by decide, by decide, by decide, by decide⟩,
    distance_components_nonneg 3 (-4) 0 ⟨1, 2, 3⟩ ⟨0, 0, 0⟩
      (by decide) (by decide) (by decide) (by decide) (by decide) (by decide)⟩

/-- C5: the hand-rolled piece equality holds exactly when both pieces are
wildcards (letters ignored), or neither is a wildcard and their letter
fields agree; in particular a wildcard and a non-wildcard are never
equal. -/
theorem piece_eq_characterization (p q : Piece) :
    pieceEq p q = true ↔
      ((p.wild = true ∧ q.wild = true) ∨
       (p.wild = false ∧ q.wild = false ∧ p.letter = q.letter)) := by
  unfold pieceEq
  rcases p with ⟨pl, pv, pw⟩
  rcases q with ⟨ql, qv, qw⟩
  rcases pw <;> rcases qw <;> rcases pl <;> rcases ql <;> simp

/-- C6 (code bug): `BagImpl::piece` is an unimplemented `// TODO` stub that
fails with `NoSuchPiece` even when a matching piece exists in the bag — here
the bag contains the letter `a`, yet requesting a piece for `a` fails,
contradicting the documented contract that `NoSuchPiece` is returned only
when no matching piece exists. -/
theorem bag_piece_stub_always_fails :
    'a' ∈ demoBag.letters ∧
      demoBag.piece 'a' =
        Except.error
          (Error.new ErrorKind.NoSuchPiece "The letter \"a\" is not in this bag") :=
  ⟨by decide, rfl⟩

/-- C7: `BagImpl::random_piece` fails with `NotEnoughPieces` exactly when
the bag is empty, leaving the letter collection untouched; on a non-empty
bag (with the rng index in range, as `gen_range(0..count)` guarantees) it
succeeds, the returned piece is created by the piece factory from a letter
that was in the bag, the factory is unchanged, and the count decreases by
exactly one. -/
theorem random_piece_spec (b : BagImpl) (idx : Nat)
    (hidx : idx < b.count ∨ b.letters = []) :
    (b.letters = [] →
        b.random_piece idx =
          some (Except.error
            (Error.new ErrorKind.NotEnoughPieces
              "Cannot retrieve a piece from an empty bag"), b)) ∧
      (b.letters ≠ [] →
        ∃ c b2, c ∈ b.letters ∧
          b.random_piece idx = some (Except.ok (b.factory c), b2) ∧
          b2.factory = b.factory ∧ b2.count + 1 = b.count) := by
  constructor
  · intro hnil
    unfold BagImpl.random_piece BagImpl.is_empty
    simp [hnil]
  · intro hne
    have hlt : idx < b.letters.length := by
      rcases hidx with h | h
      · exact h
      · exact absurd h hne
    have hget : b.letters.get? idx = some (b.letters.get ⟨idx, hlt⟩) :=
      List.get?_eq_get hlt
    have hmem : b.letters.get ⟨idx, hlt⟩ ∈ b.letters := List.get_mem _ _ _
    refine ⟨b.letters.get ⟨idx, hlt⟩,
      { b with letters := b.letters.erase (b.letters.get ⟨idx, hlt⟩) },
      hmem, ?_, rfl, ?_⟩
    · unfold BagImpl.random_piece BagImpl.is_empty
      simp [hne, List.getElem?_eq_getElem hlt]
    · unfold BagImpl.count
      have := List.length_erase_of_mem hmem
      dsimp only at this ⊢
      omega

/-- C7 witness: the `random_piece` theorem applied to the two-letter bag
`demoBag` with rng index `0`. -/
theorem random_piece_spec_witness :
    (0 < demoBag.count ∨ demoBag.letters = []) ∧
      ((demoBag.letters = [] →
          demoBag.random_piece 0 =
            some (Except.error
              (Error.new ErrorKind.NotEnoughPieces
                "Cannot retrieve a piece from an empty bag"), demoBag)) ∧
        (demoBag.letters ≠ [] →
          ∃ c b2, c ∈ demoBag.letters ∧
            demoBag.random_piece 0 = some (Except.ok (demoBag.factory c), b2) ∧
            b2.factory = demoBag.factory ∧ b2.count + 1 = demoBag.count)) :=
  ⟨Or.inl (by decide), random_piece_spec demoBag 0 (Or.inl (by decide))⟩

/-! ## Sorted-set lemmas for the `BTreeSet<Location>` model -/

theorem setInsert_sorted (a : Location) (l : List Location)
    (h : List.Sorted locle l) : List.Sorted locle (setInsert a l) := by
  unfold setInsert
  split_ifs
  · exact h
  · exact List.Sorted.orderedInsert a l h

theorem setInsert_ne_nil (a : Location) (l : List Location) : setInsert a l ≠ [] := by
  unfold setInsert
  split_ifs with hm
  · intro hnil
    rw [hnil] at hm
    exact List.not_mem_nil a hm
  · intro hnil
    have hlen := List.orderedInsert_length locle l a
    rw [hnil] at hlen
    simp at hlen

theorem lineLoop_sorted (den : Int) (k : Nat) :
    ∀ (sx sy sz px py pz : Int) (acc : List Location), List.Sorted locle acc →
      List.Sorted locle (lineLoop den k sx sy sz px py pz acc) := by
  induction k with
  | zero =>
    intro sx sy sz px py pz acc h
    simpa [lineLoop] using h
  | succ k ih =>
    intro sx sy sz px py pz acc h
    unfold lineLoop
    exact ih _ _ _ _ _ _ _ (setInsert_sorted _ _ h)

theorem lineLoop_ne_nil (den : Int) (k : Nat) :
    ∀ (sx sy sz px py pz : Int) (acc : List Location), acc ≠ [] →
      lineLoop den k sx sy sz px py pz acc ≠ [] := by
  induction k with
  | zero =>
    intro sx sy sz px py pz acc h
    simpa [lineLoop] using h
  | succ k ih =>
    intro sx sy sz px py pz acc _
    unfold lineLoop
    exact ih _ _ _ _ _ _ _ (setInsert_ne_nil _ _)

theorem sorted_head_least (l : List Location) (h : List.Sorted locle l)
    (s : Location) (hs : l.head? = some s) : s ∈ l ∧ ∀ b ∈ l, locle s b := by
  cases l with
  | nil => cases hs
  | cons a t =>
    have hsa : a = s := by simpa using hs
    subst hsa
    refine ⟨List.mem_cons_self _ _, ?_⟩
    intro b hb
    rcases List.mem_cons.mp hb with hba | hbt
    · rw [hba]
      exact locle_refl _
    · exact List.rel_of_sorted_cons h b hbt

theorem sorted_getLast_greatest :
    ∀ (l : List Location), List.Sorted locle l →
      ∀ e, l.getLast? = some e → e ∈ l ∧ ∀ b ∈ l, locle b e
  | [], _, e, he => by cases he
  | [a], _, e, he => by
    have hae : a = e := by simpa using he
    subst hae
    exact ⟨List.mem_cons_self _ _, by
      intro b hb
      have hba : b = a := by simpa using hb
      rw [hba]
      exact locle_refl _⟩
  | a :: b :: t, h, e, he => by
    rw [List.getLast?_cons_cons] at he
    have ih := sorted_getLast_greatest (b :: t) h.of_cons e he
    refine ⟨List.mem_cons_of_mem _ ih.1, ?_⟩
    intro c hc
    rcases List.mem_cons.mp hc with hca | hct
    · rw [hca]
      exact List.rel_of_sorted_cons h e ih.1
    · exact ih.2 c hct

/-! ## Line claim theorems -/

/-- C4: the degenerate line from a location to itself has exactly one
member, that location. -/
theorem line_between_self_singleton (A : Location) :
    (Line.between A A).locations = [A] := by
  unfold Line.between
  rw [distance_between_self_eq]
  simp only [Distance.zero, max_self, Int.toNat_zero]
  norm_num [lineLoop, setInsert, List.orderedInsert]

/-- C1 (code bug): `Line::between` steps by the unsigned `Distance`
components divided by `n`, losing the sign of the per-axis deltas.  For the
descending pair `A = (4,1,1)`, `B = (1,1,1)` the line therefore walks away
from `B` (its members are `(4,1,1), (5,1,1), (6,1,1), (7,1,1)`): it contains
`A` but not `B`, although the constructed line always contains both
endpoints on coordinate-wise ascending inputs such as `(1,1,1)` to
`(4,1,1)`. -/
theorem line_between_reversed_endpoint_missing :
    (Line.between ⟨4, 1, 1⟩ ⟨1, 1, 1⟩).contains ⟨4, 1, 1⟩ = true ∧
      (Line.between ⟨4, 1, 1⟩ ⟨1, 1, 1⟩).contains ⟨1, 1, 1⟩ = false ∧
      (Line.between ⟨1, 1, 1⟩ ⟨4, 1, 1⟩).contains ⟨1, 1, 1⟩ = true ∧
      (Line.between ⟨1, 1, 1⟩ ⟨4, 1, 1⟩).contains ⟨4, 1, 1⟩ = true := by decide

/-- C10: for every constructed line, `Line::start()` is the least and
`Line::end()` the greatest member of the line's location set under the
derived lexicographic order on `(x, y, z)` (`locle`) — the `BTreeSet`'s
first and last element — rather than necessarily the two constructor
arguments. -/
theorem line_start_end_extremes (A B : Location) :
    ∃ s e, (Line.between A B).start? = some s ∧ (Line.between A B).end? = some e ∧
      s ∈ (Line.between A B).locations ∧ e ∈ (Line.between A B).locations ∧
      ∀ l ∈ (Line.between A B).locations, locle s l ∧ locle l e := by
  have hsorted : List.Sorted locle (Line.between A B).locations := by
    unfold Line.between
    dsimp only
    exact lineLoop_sorted _ _ _ _ _ _ _ _ _ (setInsert_sorted _ _ List.sorted_nil)
  have hne : (Line.between A B).locations ≠ [] := by
    unfold Line.between
    dsimp only
    exact lineLoop_ne_nil _ _ _ _ _ _ _ _ _ (setInsert_ne_nil _ _)
  have hhead := sorted_head_least (Line.between A B).locations hsorted
    ((Line.between A B).locations.head hne) (List.head?_eq_head hne)
  have hlast := sorted_getLast_greatest (Line.between A B).locations hsorted
    ((Line.between A B).locations.getLast hne)
    (List.getLast?_eq_getLast (Line.between A B).locations hne)
  refine ⟨(Line.between A B).locations.head hne,
    (Line.between A B).locations.getLast hne,
    List.head?_eq_head hne,
    List.getLast?_eq_getLast (Line.between A B).locations hne,
    hhead.1, hlast.1, ?_⟩
  intro l hl
  exact ⟨hhead.2 l hl, hlast.2 l hl⟩

end Wordplay
